import Mathlib

/-!
Shallow embedding of the CartPole DQN agent (`cartpole_dqn.py`) and proofs
of its specified properties.

Modelling conventions:
* Python floats are embedded as rationals (`ℚ`); all arithmetic is exact.
* Observation states are an abstract type `S`; the neural network is an
  abstract approximator: a parameter type `P` with `predict : P → S → List ℚ`
  (modelling `model.predict(state)[0]`) and `fit : P → S → List ℚ → P × ℚ`
  (modelling `model.fit(state, q_values)`, returning updated parameters and
  the recorded training loss).
* Randomness is passed in explicitly: `np.random.rand()` and
  `random.randrange` become arguments of `act`, and the batch drawn by
  `random.sample(self.memory, BATCH_SIZE)` becomes an argument of
  `experience_replay`.
* Side effects on the collaborator are recorded in an explicit trace: each
  `model.fit` call is logged (its `state` and target-vector arguments), and
  each checkpoint write performed by the `ModelCheckpoint` callback when
  `save=True` is logged as the parameter snapshot written to disk.
-/

namespace CartpoleDQN

/-- A stored experience tuple `(state, action, reward, next_state, done)`,
as appended by `remember`. -/
structure Transition (S : Type) where
  state : S
  action : Nat
  reward : ℚ
  next_state : S
  done : Bool
deriving DecidableEq

/-- The value approximator collaborator: `predict` maps parameters and a
state to the per-action value row `model.predict(state)[0]`; `fit` performs
one training update, returning the new parameters and the loss. -/
structure Approximator (S P : Type) where
  predict : P → S → List ℚ
  fit : P → S → List ℚ → P × ℚ

/-- GAMMA = 0.95, the discount factor. -/
def GAMMA : ℚ := 95 / 100

/-- MEMORY_SIZE = 1000000, the replay-buffer capacity. -/
def MEMORY_SIZE : Nat := 1000000

/-- BATCH_SIZE = 20. -/
def BATCH_SIZE : Nat := 20

/-- EXPLORATION_MAX = 1. -/
def EXPLORATION_MAX : ℚ := 1

/-- EXPLORATION_MIN = 0.01. -/
def EXPLORATION_MIN : ℚ := 1 / 100

/-- EXPLORATION_DECAY = 0.7. -/
def EXPLORATION_DECAY : ℚ := 7 / 10

/-- The mutable fields of a `CartpoleDQN` instance that the core methods
touch: the exploration rate, the action space size, the replay deque, and
the approximator's current parameters. -/
structure AgentState (S P : Type) where
  exploration_rate : ℚ
  action_space : Nat
  memory : List (Transition S)
  params : P

/-- Appending to a `collections.deque` with `maxlen = C`: the new element
goes on the right, and if the length would exceed `C` the leftmost
(oldest) elements are discarded. -/
def dequeAppend (C : Nat) (buf : List α) (x : α) : List α :=
  let buf2 := buf ++ [x]
  if C < buf2.length then buf2.drop (buf2.length - C) else buf2

/-- Constructor `__init__`: the exploration rate starts at
`EXPLORATION_MAX`, the memory deque starts empty, and the model is loaded
from disk when a persisted file exists (`persisted = some p`) or built
fresh otherwise. -/
def initAgent {S P : Type} (action_space : Nat) (persisted : Option P)
    (fresh : P) : AgentState S P :=
  { exploration_rate := EXPLORATION_MAX
    action_space := action_space
    memory := []
    params :=
      match persisted with
      | some p => p
      | none => fresh }

/-- Method `remember`: append `(state, action, reward, next_state, done)`
to the replay deque. -/
def remember {S P : Type} (ag : AgentState S P) (state : S) (action : Nat)
    (reward : ℚ) (next_state : S) (done : Bool) : AgentState S P :=
  { ag with
    memory :=
      dequeAppend MEMORY_SIZE ag.memory
        ⟨state, action, reward, next_state, done⟩ }

/-- Maximum of a list, modelling `np.amax` over the per-action value row. -/
def amax : List ℚ → ℚ
  | [] => 0
  | [x] => x
  | x :: y :: ys => max x (amax (y :: ys))

/-- Index of the first occurrence of the maximum, modelling `np.argmax`
(the linear scan keeps the earlier index on ties). -/
def argmaxIdx : List ℚ → Nat
  | [] => 0
  | [_] => 0
  | x :: y :: ys => if x < amax (y :: ys) then argmaxIdx (y :: ys) + 1 else 0

/-- Method `act`: with probability `exploration_rate` (the draw `u` of
`np.random.rand()` is passed in, `randAction` is the result of
`random.randrange(self.action_space)`) return a random action; otherwise
return `np.argmax(model.predict(state)[0])`. -/
def act {S P : Type} (A : Approximator S P) (ag : AgentState S P) (state : S)
    (u : ℚ) (randAction : Nat) : Nat :=
  if u < ag.exploration_rate then randAction
  else argmaxIdx (A.predict ag.params state)

/-- The Bellman target value `q_update` computed for one transition of the
batch: `reward + GAMMA * np.amax(model.predict(state_next)[0])` when not
terminal, and plain `reward` when terminal. -/
def q_update {S P : Type} (A : Approximator S P) (p : P) (t : Transition S) :
    ℚ :=
  if t.done = false then
    t.reward + GAMMA * amax (A.predict p t.next_state)
  else t.reward

/-- The target vector passed to `model.fit`: the current prediction
`model.predict(state)[0]` with the component at index `action` overwritten
by `q_update` (`q_values[0][action] = q_update`). -/
def targetVector {S P : Type} (A : Approximator S P) (p : P)
    (t : Transition S) : List ℚ :=
  (A.predict p t.state).set t.action (q_update A p t)

/-- Parameters after fitting one transition: the first component of
`model.fit(state, q_values)`. -/
def stepParams {S P : Type} (A : Approximator S P) (p : P)
    (t : Transition S) : P :=
  (A.fit p t.state (targetVector A p t)).1

/-- Running state of the batch loop in `experience_replay`: the current
parameters, the log of `fit` calls made so far, the log of checkpoint
writes, and the accumulated `loss` and `rewards` lists. -/
structure ReplayTrace (S P : Type) where
  params : P
  fitLog : List (S × List ℚ)
  persistLog : List P
  losses : List ℚ
  rewards : List ℚ

/-- One iteration of the `for state, action, reward, state_next, terminal
in batch` loop: compute the target vector, call `fit` (logging the call,
and logging a checkpoint write when `save` is true), and extend the loss
and reward lists. -/
def replayStep {S P : Type} (A : Approximator S P) (save : Bool)
    (tr : ReplayTrace S P) (t : Transition S) : ReplayTrace S P :=
  let qv := targetVector A tr.params t
  let res := A.fit tr.params t.state qv
  { params := res.1
    fitLog := tr.fitLog ++ [(t.state, qv)]
    persistLog := if save then tr.persistLog ++ [res.1] else tr.persistLog
    losses := tr.losses ++ [res.2]
    rewards := tr.rewards ++ [t.reward] }

/-- Arithmetic mean, modelling `np.mean`. -/
def mean (l : List ℚ) : ℚ := l.sum / l.length

/-- Result of one `experience_replay` call: the updated agent state, the
trace of collaborator side effects, and the returned pair
`(np.mean(loss), np.mean(rewards))`. -/
structure ReplayResult (S P : Type) where
  agent : AgentState S P
  trace : ReplayTrace S P
  ret : ℚ × ℚ

/-- Method `experience_replay`: if the memory holds fewer than
`BATCH_SIZE` transitions, return the sentinel `(-1, -1)` and do nothing.
Otherwise process the sampled `batch` transition by transition, then decay
the exploration rate once (`*= EXPLORATION_DECAY`, clamped below by
`EXPLORATION_MIN`) and return the mean loss and mean reward. -/
def experience_replay {S P : Type} (A : Approximator S P) (save : Bool)
    (ag : AgentState S P) (batch : List (Transition S)) : ReplayResult S P :=
  if ag.memory.length < BATCH_SIZE then
    { agent := ag
      trace := ⟨ag.params, [], [], [], []⟩
      ret := (-1, -1) }
  else
    let tr := batch.foldl (replayStep A save) ⟨ag.params, [], [], [], []⟩
    let er1 := ag.exploration_rate * EXPLORATION_DECAY
    let er2 := max EXPLORATION_MIN er1
    { agent := { ag with params := tr.params, exploration_rate := er2 }
      trace := tr
      ret := (mean tr.losses, mean tr.rewards) }

/-- Parameters held by the loop after processing a prefix of the batch:
fold of `stepParams` over the transitions processed so far. -/
def paramsAfter {S P : Type} (A : Approximator S P) (p : P)
    (ts : List (Transition S)) : P :=
  ts.foldl (stepParams A) p

/-- The sequence of `(state, target_vector)` arguments that the batch loop
passes to `model.fit`, starting from parameters `p`. -/
def fitCalls {S P : Type} (A : Approximator S P) (p : P) :
    List (Transition S) → List (S × List ℚ)
  | [] => []
  | t :: ts => (t.state, targetVector A p t) :: fitCalls A (stepParams A p t) ts

/-- Agent state after a sequence of `experience_replay` calls, one per
supplied batch. -/
def replayIter {S P : Type} (A : Approximator S P) (save : Bool)
    (ag : AgentState S P) (batches : List (List (Transition S))) :
    AgentState S P :=
  batches.foldl (fun a b => (experience_replay A save a b).agent) ag

/-- Agent state after a sequence of `remember` calls, one per supplied
transition. -/
def rememberAll {S P : Type} (ag : AgentState S P)
    (ts : List (Transition S)) : AgentState S P :=
  ts.foldl
    (fun a t => remember a t.state t.action t.reward t.next_state t.done) ag

/-- Agent states reachable from construction through `remember` and
`experience_replay` calls (`act` does not mutate the agent). -/
inductive Reachable {S P : Type} (A : Approximator S P) :
    AgentState S P → Prop where
  | init (action_space : Nat) (persisted : Option P) (fresh : P) :
      Reachable A (initAgent action_space persisted fresh)
  | rem (ag : AgentState S P) (s : S) (a : Nat) (r : ℚ) (s2 : S) (d : Bool) :
      Reachable A ag → Reachable A (remember ag s a r s2 d)
  | replay (ag : AgentState S P) (save : Bool) (batch : List (Transition S)) :
      Reachable A ag → Reachable A (experience_replay A save ag batch).agent

/-! Concrete test fixtures used to witness the theorems below on closed
inputs. -/

/-- A concrete approximator over trivial states `Unit` and rational
parameters: two actions, predictions `[p, p + 1]`, and a `fit` that shifts
the parameter by the sum of the target vector with loss `3`. -/
def wApprox : Approximator Unit ℚ where
  predict := fun p _ => [p, p + 1]
  fit := fun p _ v => (p + v.sum, 3)

/-- A concrete non-terminal transition. -/
def wTrans : Transition Unit := ⟨(), 0, 2, (), false⟩

/-- A concrete terminal transition. -/
def wTransDone : Transition Unit := ⟨(), 1, 5, (), true⟩

/-- An agent whose memory is empty (below `BATCH_SIZE`). -/
def wAgentEmpty : AgentState Unit ℚ :=
  { exploration_rate := EXPLORATION_MAX
    action_space := 2
    memory := []
    params := 0 }

/-- An agent whose memory holds exactly `BATCH_SIZE` transitions. -/
def wAgentFull : AgentState Unit ℚ :=
  { exploration_rate := EXPLORATION_MAX
    action_space := 2
    memory := List.replicate 20 wTrans
    params := 0 }

/-- An agent with zero exploration rate, used for the `act` theorems. -/
def wAgentGreedy : AgentState Unit ℚ :=
  { exploration_rate := 0
    action_space := 2
    memory := []
    params := 0 }

/-! Helper lemmas. -/

/-- Unconditional characterisation of `dequeAppend` as a saturating drop. -/
lemma dequeAppend_eq_drop {α : Type} (C : Nat) (buf : List α) (x : α) :
    dequeAppend C buf x = (buf ++ [x]).drop ((buf.length + 1) - C) := by
  simp only [dequeAppend]
  split
  · simp
  · next h =>
    have : buf.length + 1 ≤ C := by simpa using h
    simp [Nat.sub_eq_zero_of_le this]

/-- Folding `dequeAppend C` from the empty buffer keeps exactly the last
`C` appended elements, in order. -/
lemma foldl_dequeAppend {α : Type} (C : Nat) (hC : 0 < C) (ts : List α) :
    ts.foldl (dequeAppend C) [] = ts.drop (ts.length - C) := by
  induction ts using List.reverseRecOn with
  | nil => simp
  | append_singleton ts t ih =>
    rw [List.foldl_append, List.foldl_cons, List.foldl_nil, ih,
      dequeAppend_eq_drop]
    simp only [List.length_drop, List.length_append, List.length_cons,
      List.length_nil, Nat.zero_add]
    rcases Nat.lt_or_ge ts.length C with hlt | hge
    · have e1 : ts.length - C = 0 := by omega
      rw [e1]
      have e2 : ts.length - 0 + 1 - C = 0 := by omega
      have e3 : ts.length + 1 - C = 0 := by omega
      rw [e2, e3, List.drop_zero, List.drop_zero, List.drop_zero]
    · have e2 : ts.length - (ts.length - C) + 1 - C = 1 := by omega
      rw [e2]
      have h2 : (1 : Nat) ≤ (ts.drop (ts.length - C)).length := by
        rw [List.length_drop]; omega
      rw [List.drop_append_of_le_length h2, List.drop_drop]
      have e3 : ts.length + 1 - C = ts.length - C + 1 := by omega
      rw [e3]
      have h3 : ts.length - C + 1 ≤ ts.length := by omega
      rw [List.drop_append_of_le_length h3]

/-- The memory built by a sequence of `remember` calls is the fold of
`dequeAppend` over the supplied transitions. -/
lemma rememberAll_memory {S P : Type} (ag : AgentState S P)
    (ts : List (Transition S)) :
    (rememberAll ag ts).memory = ts.foldl (dequeAppend MEMORY_SIZE) ag.memory := by
  induction ts generalizing ag with
  | nil => rfl
  | cons t ts ih =>
    rw [rememberAll, List.foldl_cons, List.foldl_cons, ← rememberAll]
    rw [ih]
    rfl

/-- The parameters threaded through the batch loop are the fold of
`stepParams`. -/
lemma foldl_replayStep_params {S P : Type} (A : Approximator S P)
    (save : Bool) :
    ∀ (ts : List (Transition S)) (tr : ReplayTrace S P),
      (List.foldl (replayStep A save) tr ts).params = paramsAfter A tr.params ts := by
  intro ts
  induction ts with
  | nil => intro tr; rfl
  | cons t ts ih =>
    intro tr
    rw [List.foldl_cons, ih]
    rfl

/-- The `fit`-call log accumulated by the batch loop is `fitCalls`. -/
lemma foldl_replayStep_fitLog {S P : Type} (A : Approximator S P)
    (save : Bool) :
    ∀ (ts : List (Transition S)) (tr : ReplayTrace S P),
      (List.foldl (replayStep A save) tr ts).fitLog
        = tr.fitLog ++ fitCalls A tr.params ts := by
  intro ts
  induction ts with
  | nil => intro tr; simp [fitCalls]
  | cons t ts ih =>
    intro tr
    rw [List.foldl_cons, ih]
    simp [replayStep, fitCalls, stepParams]

/-- Elementwise characterisation of `fitCalls`: the `i`-th `fit` call
passes the `i`-th transition's state and the target vector computed from
the parameters as they are after the first `i` updates. -/
lemma fitCalls_getElem {S P : Type} (A : Approximator S P) :
    ∀ (ts : List (Transition S)) (p : P) (i : Nat),
      (fitCalls A p ts)[i]?
        = (ts[i]?).map
            (fun t => (t.state, targetVector A (paramsAfter A p (ts.take i)) t)) := by
  intro ts
  induction ts with
  | nil => intro p i; simp [fitCalls]
  | cons t ts ih =>
    intro p i
    cases i with
    | zero => simp [fitCalls, paramsAfter]
    | succ i =>
      simp only [fitCalls, List.getElem?_cons_succ, List.take_succ_cons]
      rw [ih]
      rfl

/-- On the trained branch, the memory check in `experience_replay` fails
and the trace is the batch fold. -/
lemma experience_replay_trained {S P : Type} (A : Approximator S P)
    (save : Bool) (ag : AgentState S P) (batch : List (Transition S))
    (h : BATCH_SIZE ≤ ag.memory.length) :
    experience_replay A save ag batch
      = { agent :=
            { ag with
              params := (batch.foldl (replayStep A save)
                ⟨ag.params, [], [], [], []⟩).params
              exploration_rate :=
                max EXPLORATION_MIN (ag.exploration_rate * EXPLORATION_DECAY) }
          trace := batch.foldl (replayStep A save) ⟨ag.params, [], [], [], []⟩
          ret :=
            (mean (batch.foldl (replayStep A save) ⟨ag.params, [], [], [], []⟩).losses,
             mean (batch.foldl (replayStep A save) ⟨ag.params, [], [], [], []⟩).rewards) } := by
  rw [experience_replay, if_neg (Nat.not_lt.mpr h)]

/-- The `fit`-call log of a trained `experience_replay` call. -/
lemma experience_replay_fitLog {S P : Type} (A : Approximator S P)
    (save : Bool) (ag : AgentState S P) (batch : List (Transition S))
    (h : BATCH_SIZE ≤ ag.memory.length) :
    (experience_replay A save ag batch).trace.fitLog
      = fitCalls A ag.params batch := by
  rw [experience_replay_trained A save ag batch h]
  simpa using foldl_replayStep_fitLog A save batch ⟨ag.params, [], [], [], []⟩

/-- `experience_replay` never changes the memory. -/
lemma experience_replay_memory {S P : Type} (A : Approximator S P)
    (save : Bool) (ag : AgentState S P) (batch : List (Transition S)) :
    (experience_replay A save ag batch).agent.memory = ag.memory := by
  rw [experience_replay]
  split <;> rfl

/-- Exploration-rate update of a trained `experience_replay` call. -/
lemma experience_replay_rate {S P : Type} (A : Approximator S P)
    (save : Bool) (ag : AgentState S P) (batch : List (Transition S))
    (h : BATCH_SIZE ≤ ag.memory.length) :
    (experience_replay A save ag batch).agent.exploration_rate
      = max EXPLORATION_MIN (ag.exploration_rate * EXPLORATION_DECAY) := by
  rw [experience_replay_trained A save ag batch h]

/-- Every element of a list is bounded by `amax`. -/
lemma getD_le_amax : ∀ (l : List ℚ) (j : Nat), j < l.length → l.getD j 0 ≤ amax l := by
  intro l
  induction l with
  | nil => simp
  | cons x xs ih =>
    cases xs with
    | nil =>
      intro j hj
      have : j = 0 := by simpa using Nat.lt_one_iff.mp (by simpa using hj)
      subst this
      simp [amax]
    | cons y ys =>
      intro j hj
      cases j with
      | zero => simp [amax]
      | succ j =>
        have hj2 : j < (y :: ys).length := by simpa using hj
        calc (x :: y :: ys).getD (j + 1) 0 = (y :: ys).getD j 0 := by simp
          _ ≤ amax (y :: ys) := ih j hj2
          _ ≤ amax (x :: y :: ys) := by simp [amax]

/-- `argmaxIdx` of a nonempty list is a valid index. -/
lemma argmaxIdx_lt_length : ∀ (l : List ℚ), l ≠ [] → argmaxIdx l < l.length := by
  intro l
  induction l with
  | nil => intro h; exact absurd rfl h
  | cons x xs ih =>
    cases xs with
    | nil => intro _; simp [argmaxIdx]
    | cons y ys =>
      intro _
      rw [argmaxIdx]
      split
      · have := ih (by simp)
        simpa using Nat.succ_lt_succ this
      · simp

/-- `argmaxIdx` points at the maximum value. -/
lemma getD_argmaxIdx : ∀ (l : List ℚ), l ≠ [] → l.getD (argmaxIdx l) 0 = amax l := by
  intro l
  induction l with
  | nil => intro h; exact absurd rfl h
  | cons x xs ih =>
    cases xs with
    | nil => intro _; simp [argmaxIdx, amax]
    | cons y ys =>
      intro _
      rw [argmaxIdx]
      split
      · next hlt =>
        have hmax : amax (x :: y :: ys) = amax (y :: ys) := by
          rw [amax]; exact max_eq_right (le_of_lt hlt)
        rw [hmax]
        calc (x :: y :: ys).getD (argmaxIdx (y :: ys) + 1) 0
            = (y :: ys).getD (argmaxIdx (y :: ys)) 0 := by simp
          _ = amax (y :: ys) := ih (by simp)
      · next hge =>
        have hmax : amax (x :: y :: ys) = x := by
          rw [amax]; exact max_eq_left (not_lt.mp hge)
        simp [hmax]

/-- Everything strictly before `argmaxIdx` is strictly below the maximum:
ties are broken by the lowest index. -/
lemma getD_lt_of_lt_argmaxIdx :
    ∀ (l : List ℚ) (j : Nat), j < argmaxIdx l →
      l.getD j 0 < l.getD (argmaxIdx l) 0 := by
  intro l
  induction l with
  | nil => intro j hj; simp [argmaxIdx] at hj
  | cons x xs ih =>
    cases xs with
    | nil => intro j hj; simp [argmaxIdx] at hj
    | cons y ys =>
      intro j hj
      rw [argmaxIdx] at hj ⊢
      split at hj
      · next hlt =>
        rw [if_pos hlt]
        have hval : (x :: y :: ys).getD (argmaxIdx (y :: ys) + 1) 0
            = amax (y :: ys) := by
          calc (x :: y :: ys).getD (argmaxIdx (y :: ys) + 1) 0
              = (y :: ys).getD (argmaxIdx (y :: ys)) 0 := by simp
            _ = amax (y :: ys) := getD_argmaxIdx (y :: ys) (by simp)
        rw [hval]
        cases j with
        | zero => simpa using hlt
        | succ j =>
          have hj2 : j < argmaxIdx (y :: ys) := by omega
          have := ih j hj2
          rw [getD_argmaxIdx (y :: ys) (by simp)] at this
          simpa using this
      · omega

/-- Clamped-decay algebra: one more decay-and-clamp step advances the
closed form by one factor of `d`. -/
lemma max_clamp_decay (m d x : ℚ) (hm : 0 ≤ m) (hd0 : 0 ≤ d) (hd1 : d ≤ 1)
    (n : Nat) :
    max m (max m (x * d) * d ^ n) = max m (x * d ^ (n + 1)) := by
  rw [max_mul_of_nonneg _ _ (pow_nonneg hd0 n)]
  have h1 : m * d ^ n ≤ m := by
    calc m * d ^ n ≤ m * 1 :=
          mul_le_mul_of_nonneg_left (pow_le_one₀ hd0 hd1) hm
      _ = m := mul_one m
  rw [← max_assoc, max_eq_left h1]
  congr 1
  rw [pow_succ]
  ring

/-- Exploration-rate bounds hold in every reachable agent state. -/
lemma reachable_rate_bounds {S P : Type} (A : Approximator S P)
    (ag : AgentState S P) (h : Reachable A ag) :
    EXPLORATION_MIN ≤ ag.exploration_rate
      ∧ ag.exploration_rate ≤ EXPLORATION_MAX := by
  induction h with
  | init action_space persisted fresh =>
    constructor
    · norm_num [initAgent, EXPLORATION_MIN, EXPLORATION_MAX]
    · norm_num [initAgent, EXPLORATION_MAX]
  | rem ag s a r s2 d _ ih => simpa [remember] using ih
  | replay ag save batch _ ih =>
    rcases Nat.lt_or_ge ag.memory.length BATCH_SIZE with hlt | hge
    · rw [experience_replay, if_pos hlt]
      exact ih
    · rw [experience_replay_rate A save ag batch hge]
      constructor
      · exact le_max_left _ _
      · have h0 : (0 : ℚ) ≤ ag.exploration_rate := by
          have : (0 : ℚ) ≤ EXPLORATION_MIN := by norm_num [EXPLORATION_MIN]
          exact le_trans this ih.1
        have h1 : ag.exploration_rate * EXPLORATION_DECAY ≤ ag.exploration_rate := by
          calc ag.exploration_rate * EXPLORATION_DECAY
              ≤ ag.exploration_rate * 1 :=
                mul_le_mul_of_nonneg_left (by norm_num [EXPLORATION_DECAY]) h0
            _ = ag.exploration_rate := mul_one _
        apply max_le
        · norm_num [EXPLORATION_MIN, EXPLORATION_MAX]
        · exact le_trans h1 ih.2

/-- Closed form for the exploration rate after a sequence of trained
`experience_replay` calls. -/
lemma replayIter_rate {S P : Type} (A : Approximator S P) (save : Bool) :
    ∀ (batches : List (List (Transition S))) (ag : AgentState S P),
      BATCH_SIZE ≤ ag.memory.length →
      EXPLORATION_MIN ≤ ag.exploration_rate →
      (replayIter A save ag batches).exploration_rate
        = max EXPLORATION_MIN
            (ag.exploration_rate * EXPLORATION_DECAY ^ batches.length) := by
  intro batches
  induction batches with
  | nil =>
    intro ag _ hrate
    rw [replayIter, List.foldl_nil, List.length_nil, pow_zero, mul_one,
      max_eq_right hrate]
  | cons b bs ih =>
    intro ag hmem hrate
    have hmem2 : BATCH_SIZE ≤ (experience_replay A save ag b).agent.memory.length := by
      rw [experience_replay_memory]; exact hmem
    have hstep : (experience_replay A save ag b).agent.exploration_rate
        = max EXPLORATION_MIN (ag.exploration_rate * EXPLORATION_DECAY) :=
      experience_replay_rate A save ag b hmem
    have hrate2 : EXPLORATION_MIN ≤ (experience_replay A save ag b).agent.exploration_rate := by
      rw [hstep]; exact le_max_left _ _
    rw [replayIter, List.foldl_cons, ← replayIter, ih _ hmem2 hrate2, hstep,
      List.length_cons]
    exact max_clamp_decay EXPLORATION_MIN EXPLORATION_DECAY ag.exploration_rate
      (by norm_num [EXPLORATION_MIN]) (by norm_num [EXPLORATION_DECAY])
      (by norm_num [EXPLORATION_DECAY]) bs.length

/-! Claim theorems. -/

/-- Claim C1: for every non-terminal transition `(s, a, r, s', done=false)`
processed in a successful training batch, the target value written at the
taken action's index equals `r + GAMMA * max(predict(s'))`, computed with
the approximator parameters as they are when that transition is processed
within the batch. -/
theorem bellman_target_nonterminal (S P : Type) (A : Approximator S P)
    (save : Bool) (ag : AgentState S P) (batch : List (Transition S))
    (i : Nat) (t : Transition S)
    (hmem : BATCH_SIZE ≤ ag.memory.length)
    (ht : batch[i]? = some t) (hdone : t.done = false) :
    (experience_replay A save ag batch).trace.fitLog[i]?
      = some (t.state,
          (A.predict (paramsAfter A ag.params (batch.take i)) t.state).set
            t.action
            (t.reward + GAMMA
              * amax (A.predict (paramsAfter A ag.params (batch.take i))
                  t.next_state))) := by
  rw [experience_replay_fitLog A save ag batch hmem, fitCalls_getElem, ht]
  simp [targetVector, q_update, hdone]

/-- Witness for C1 at a concrete agent, batch and transition. -/
theorem bellman_target_nonterminal_witness :
    (experience_replay wApprox true wAgentFull [wTrans]).trace.fitLog[0]?
      = some (wTrans.state,
          (wApprox.predict (paramsAfter wApprox wAgentFull.params
              ([wTrans].take 0)) wTrans.state).set
            wTrans.action
            (wTrans.reward + GAMMA
              * amax (wApprox.predict (paramsAfter wApprox wAgentFull.params
                  ([wTrans].take 0)) wTrans.next_state))) :=
  bellman_target_nonterminal Unit ℚ wApprox true wAgentFull [wTrans] 0 wTrans
    (by decide) rfl rfl

/-- Claim C2: for every terminal transition `(s, a, r, s', done=true)`
processed in a successful training batch, the target value written at the
taken action's index equals exactly `r`; moreover the target value of a
terminal transition equals its reward for every approximator and every
parameter value, so no prediction on `s'` is used. -/
theorem bellman_target_terminal (S P : Type) (A : Approximator S P)
    (save : Bool) (ag : AgentState S P) (batch : List (Transition S))
    (i : Nat) (t : Transition S)
    (hmem : BATCH_SIZE ≤ ag.memory.length)
    (ht : batch[i]? = some t) (hdone : t.done = true) :
    (experience_replay A save ag batch).trace.fitLog[i]?
      = some (t.state,
          (A.predict (paramsAfter A ag.params (batch.take i)) t.state).set
            t.action t.reward)
    ∧ ∀ (B : Approximator S P) (q : P), q_update B q t = t.reward := by
  constructor
  · rw [experience_replay_fitLog A save ag batch hmem, fitCalls_getElem, ht]
    simp [targetVector, q_update, hdone]
  · intro B q
    simp [q_update, hdone]

/-- Witness for C2 at a concrete agent, batch and terminal transition. -/
theorem bellman_target_terminal_witness :
    (experience_replay wApprox true wAgentFull [wTransDone]).trace.fitLog[0]?
      = some (wTransDone.state,
          (wApprox.predict (paramsAfter wApprox wAgentFull.params
              ([wTransDone].take 0)) wTransDone.state).set
            wTransDone.action wTransDone.reward)
    ∧ ∀ (B : Approximator Unit ℚ) (q : ℚ),
        q_update B q wTransDone = wTransDone.reward :=
  bellman_target_terminal Unit ℚ wApprox true wAgentFull [wTransDone] 0
    wTransDone (by decide) rfl rfl

/-- Claim C3: for every transition processed in a successful training
batch, the vector passed to `fit` is the approximator's current prediction
for `s` with only the component at the taken action's index replaced by
the computed target; components at other indices are unchanged. -/
theorem fit_target_frame (S P : Type) (A : Approximator S P)
    (save : Bool) (ag : AgentState S P) (batch : List (Transition S))
    (i : Nat) (t : Transition S)
    (hmem : BATCH_SIZE ≤ ag.memory.length)
    (ht : batch[i]? = some t) :
    (experience_replay A save ag batch).trace.fitLog[i]?
      = some (t.state,
          (A.predict (paramsAfter A ag.params (batch.take i)) t.state).set
            t.action (q_update A (paramsAfter A ag.params (batch.take i)) t))
    ∧ (∀ j, j ≠ t.action →
        ((A.predict (paramsAfter A ag.params (batch.take i)) t.state).set
            t.action (q_update A (paramsAfter A ag.params (batch.take i)) t))[j]?
          = (A.predict (paramsAfter A ag.params (batch.take i)) t.state)[j]?)
    ∧ (t.action < (A.predict (paramsAfter A ag.params (batch.take i)) t.state).length →
        ((A.predict (paramsAfter A ag.params (batch.take i)) t.state).set
            t.action (q_update A (paramsAfter A ag.params (batch.take i)) t))[t.action]?
          = some (q_update A (paramsAfter A ag.params (batch.take i)) t)) := by
  refine ⟨?_, ?_, ?_⟩
  · rw [experience_replay_fitLog A save ag batch hmem, fitCalls_getElem, ht]
    simp [targetVector]
  · intro j hj
    exact List.getElem?_set_ne (Ne.symm hj)
  · intro hlt
    simp [List.getElem?_set, hlt]

/-- Witness for C3 at a concrete agent, batch and transition. -/
theorem fit_target_frame_witness :
    (experience_replay wApprox true wAgentFull [wTrans]).trace.fitLog[0]?
      = some (wTrans.state,
          (wApprox.predict (paramsAfter wApprox wAgentFull.params
              ([wTrans].take 0)) wTrans.state).set
            wTrans.action
            (q_update wApprox (paramsAfter wApprox wAgentFull.params
              ([wTrans].take 0)) wTrans))
    ∧ (∀ j, j ≠ wTrans.action →
        ((wApprox.predict (paramsAfter wApprox wAgentFull.params
            ([wTrans].take 0)) wTrans.state).set
          wTrans.action
          (q_update wApprox (paramsAfter wApprox wAgentFull.params
            ([wTrans].take 0)) wTrans))[j]?
          = (wApprox.predict (paramsAfter wApprox wAgentFull.params
              ([wTrans].take 0)) wTrans.state)[j]?)
    ∧ (wTrans.action < (wApprox.predict (paramsAfter wApprox wAgentFull.params
          ([wTrans].take 0)) wTrans.state).length →
        ((wApprox.predict (paramsAfter wApprox wAgentFull.params
            ([wTrans].take 0)) wTrans.state).set
          wTrans.action
          (q_update wApprox (paramsAfter wApprox wAgentFull.params
            ([wTrans].take 0)) wTrans))[wTrans.action]?
          = some (q_update wApprox (paramsAfter wApprox wAgentFull.params
              ([wTrans].take 0)) wTrans)) :=
  fit_target_frame Unit ℚ wApprox true wAgentFull [wTrans] 0 wTrans
    (by decide) rfl

/-- Claim C4: when the buffer holds fewer than `BATCH_SIZE` transitions,
`experience_replay` returns the sentinel `(-1, -1)` and changes nothing:
the agent state (exploration rate, buffer, parameters) is returned intact,
no `fit` call is made, and no persisted write occurs. -/
theorem not_ready_noop (S P : Type) (A : Approximator S P) (save : Bool)
    (ag : AgentState S P) (batch : List (Transition S))
    (h : ag.memory.length < BATCH_SIZE) :
    (experience_replay A save ag batch).agent = ag
    ∧ (experience_replay A save ag batch).trace.fitLog = []
    ∧ (experience_replay A save ag batch).trace.persistLog = []
    ∧ (experience_replay A save ag batch).ret = (-1, -1) := by
  rw [experience_replay, if_pos h]
  exact ⟨rfl, rfl, rfl, rfl⟩

/-- Witness for C4 at a concrete under-filled agent. -/
theorem not_ready_noop_witness :
    (experience_replay wApprox true wAgentEmpty []).agent = wAgentEmpty
    ∧ (experience_replay wApprox true wAgentEmpty []).trace.fitLog = []
    ∧ (experience_replay wApprox true wAgentEmpty []).trace.persistLog = []
    ∧ (experience_replay wApprox true wAgentEmpty []).ret = (-1, -1) :=
  not_ready_noop Unit ℚ wApprox true wAgentEmpty [] (by decide)

/-- Claim C5: in every reachable agent state the exploration rate lies in
`[EXPLORATION_MIN, EXPLORATION_MAX]`; after `n` successful training steps
starting from `EXPLORATION_MAX` it equals
`max EXPLORATION_MIN (EXPLORATION_MAX * EXPLORATION_DECAY ^ n)` — one
decay per successful call, independent of the batch contents; and the
`NOT_READY` path performs no decay. -/
theorem exploration_schedule :
    (∀ (S P : Type) (A : Approximator S P) (ag : AgentState S P),
        Reachable A ag →
          EXPLORATION_MIN ≤ ag.exploration_rate
            ∧ ag.exploration_rate ≤ EXPLORATION_MAX)
    ∧ (∀ (S P : Type) (A : Approximator S P) (save : Bool)
         (ag : AgentState S P) (batches : List (List (Transition S))),
        BATCH_SIZE ≤ ag.memory.length →
        ag.exploration_rate = EXPLORATION_MAX →
        (replayIter A save ag batches).exploration_rate
          = max EXPLORATION_MIN
              (EXPLORATION_MAX * EXPLORATION_DECAY ^ batches.length))
    ∧ (∀ (S P : Type) (A : Approximator S P) (save : Bool)
         (ag : AgentState S P) (batch : List (Transition S)),
        ag.memory.length < BATCH_SIZE →
        (experience_replay A save ag batch).agent.exploration_rate
          = ag.exploration_rate) := by
  refine ⟨?_, ?_, ?_⟩
  · intro S P A ag h
    exact reachable_rate_bounds A ag h
  · intro S P A save ag batches hmem hrate
    have h1 : EXPLORATION_MIN ≤ ag.exploration_rate := by
      rw [hrate]; norm_num [EXPLORATION_MIN, EXPLORATION_MAX]
    rw [replayIter_rate A save batches ag hmem h1, hrate]
  · intro S P A save ag batch h
    rw [experience_replay, if_pos h]

/-- Witness for C5: the bounds at a freshly constructed agent, the closed
form after one successful call, and the unchanged rate on the `NOT_READY`
path, all at concrete inputs. -/
theorem exploration_schedule_witness :
    (EXPLORATION_MIN ≤ (initAgent (S := Unit) (P := ℚ) 2 none 0).exploration_rate
      ∧ (initAgent (S := Unit) (P := ℚ) 2 none 0).exploration_rate
          ≤ EXPLORATION_MAX)
    ∧ (replayIter wApprox true wAgentFull [([] : List (Transition Unit))]).exploration_rate
        = max EXPLORATION_MIN
            (EXPLORATION_MAX
              * EXPLORATION_DECAY ^ [([] : List (Transition Unit))].length)
    ∧ (experience_replay wApprox true wAgentEmpty []).agent.exploration_rate
        = wAgentEmpty.exploration_rate :=
  ⟨exploration_schedule.1 Unit ℚ wApprox _ (Reachable.init 2 none 0),
   exploration_schedule.2.1 Unit ℚ wApprox true wAgentFull
     [([] : List (Transition Unit))] (by decide) rfl,
   exploration_schedule.2.2 Unit ℚ wApprox true wAgentEmpty [] (by decide)⟩

/-- Claim C6: starting from the empty buffer created at construction, any
sequence of `remember` calls leaves the buffer no larger than
`MEMORY_SIZE`, and its contents are exactly the most recent appends in
insertion order (the saturating drop keeps the last `MEMORY_SIZE`
transitions once more than `MEMORY_SIZE` have been appended). -/
theorem buffer_capacity (S P : Type) (action_space : Nat)
    (persisted : Option P) (fresh : P) (ts : List (Transition S)) :
    (rememberAll (initAgent action_space persisted fresh) ts).memory.length
        ≤ MEMORY_SIZE
    ∧ (rememberAll (initAgent action_space persisted fresh) ts).memory
        = ts.drop (ts.length - MEMORY_SIZE) := by
  have h := rememberAll_memory
    (initAgent (S := S) (P := P) action_space persisted fresh) ts
  have h2 : (initAgent (S := S) (P := P) action_space persisted fresh).memory
      = [] := rfl
  rw [h2, foldl_dequeAppend MEMORY_SIZE (by norm_num [MEMORY_SIZE])] at h
  refine ⟨?_, h⟩
  rw [h, List.length_drop]
  omega

/-- Claim C7: with exploration rate `0` (the draw of `np.random.rand()`
being nonnegative), `act` always takes the exploitation branch and
returns `argmax` of the prediction vector: a valid index holding the
maximum value, with ties broken by the lowest index, hence a
deterministic function of the state and parameters. -/
theorem act_zero_exploration (S P : Type) (A : Approximator S P)
    (ag : AgentState S P) (state : S) (u : ℚ) (randAction : Nat)
    (hrate : ag.exploration_rate = 0) (hu : 0 ≤ u)
    (hne : A.predict ag.params state ≠ []) :
    act A ag state u randAction = argmaxIdx (A.predict ag.params state)
    ∧ argmaxIdx (A.predict ag.params state) < (A.predict ag.params state).length
    ∧ (∀ j, j < (A.predict ag.params state).length →
        (A.predict ag.params state).getD j 0
          ≤ (A.predict ag.params state).getD
              (argmaxIdx (A.predict ag.params state)) 0)
    ∧ (∀ j, j < argmaxIdx (A.predict ag.params state) →
        (A.predict ag.params state).getD j 0
          < (A.predict ag.params state).getD
              (argmaxIdx (A.predict ag.params state)) 0) := by
  refine ⟨?_, argmaxIdx_lt_length _ hne, ?_, getD_lt_of_lt_argmaxIdx _⟩
  · rw [act, hrate, if_neg (not_lt.mpr hu)]
  · intro j hj
    rw [getD_argmaxIdx _ hne]
    exact getD_le_amax _ j hj

/-- Witness for C7 at a concrete greedy agent. -/
theorem act_zero_exploration_witness :
    act wApprox wAgentGreedy () 0 1
        = argmaxIdx (wApprox.predict wAgentGreedy.params ())
    ∧ argmaxIdx (wApprox.predict wAgentGreedy.params ())
        < (wApprox.predict wAgentGreedy.params ()).length
    ∧ (∀ j, j < (wApprox.predict wAgentGreedy.params ()).length →
        (wApprox.predict wAgentGreedy.params ()).getD j 0
          ≤ (wApprox.predict wAgentGreedy.params ()).getD
              (argmaxIdx (wApprox.predict wAgentGreedy.params ())) 0)
    ∧ (∀ j, j < argmaxIdx (wApprox.predict wAgentGreedy.params ()) →
        (wApprox.predict wAgentGreedy.params ()).getD j 0
          < (wApprox.predict wAgentGreedy.params ()).getD
              (argmaxIdx (wApprox.predict wAgentGreedy.params ())) 0) :=
  act_zero_exploration Unit ℚ wApprox wAgentGreedy () 0 1 rfl (le_refl 0)
    (by decide)

/-- Claim C8: construction always sets the exploration rate to
`EXPLORATION_MAX` and the buffer to empty, both when a persisted
approximator is restored and when a fresh one is initialized. -/
theorem init_fresh_state (S P : Type) (action_space : Nat)
    (persisted : Option P) (fresh : P) :
    (initAgent (S := S) action_space persisted fresh).exploration_rate
        = EXPLORATION_MAX
    ∧ (initAgent (S := S) action_space persisted fresh).memory = [] :=
  ⟨rfl, rfl⟩

/-- Claim C9: `experience_replay` never changes the buffer's contents or
order, and the only removal ever performed is the saturating FIFO drop
done by `remember` when appending at capacity. -/
theorem replay_preserves_memory :
    (∀ (S P : Type) (A : Approximator S P) (save : Bool)
       (ag : AgentState S P) (batch : List (Transition S)),
        (experience_replay A save ag batch).agent.memory = ag.memory)
    ∧ (∀ (S P : Type) (ag : AgentState S P) (s : S) (a : Nat) (r : ℚ)
         (s2 : S) (d : Bool),
        (remember ag s a r s2 d).memory
          = (ag.memory ++ [Transition.mk s a r s2 d]).drop
              ((ag.memory.length + 1) - MEMORY_SIZE)) := by
  constructor
  · intro S P A save ag batch
    exact experience_replay_memory A save ag batch
  · intro S P ag s a r s2 d
    have h : (remember ag s a r s2 d).memory
        = dequeAppend MEMORY_SIZE ag.memory (Transition.mk s a r s2 d) := rfl
    rw [h, dequeAppend_eq_drop]

/-- Claim C10: `act` returns an action index in `[0, action_space)` on
both branches, given that the random draw of `random.randrange` is in
range and the prediction vector has length `action_space`. -/
theorem act_action_in_range (S P : Type) (A : Approximator S P)
    (ag : AgentState S P) (state : S) (u : ℚ) (randAction : Nat)
    (h0 : 0 < ag.action_space)
    (hlen : (A.predict ag.params state).length = ag.action_space)
    (hrand : randAction < ag.action_space) :
    act A ag state u randAction < ag.action_space := by
  rw [act]
  split
  · exact hrand
  · rw [← hlen]
    apply argmaxIdx_lt_length
    intro hnil
    rw [hnil] at hlen
    simp at hlen
    omega

/-- Witness for C10 at a concrete agent, exercised on the exploitation
branch. -/
theorem act_action_in_range_witness :
    act wApprox wAgentGreedy () (1 / 2) 0 < wAgentGreedy.action_space :=
  act_action_in_range Unit ℚ wApprox wAgentGreedy () (1 / 2) 0 (by decide)
    (by decide) (by decide)

end CartpoleDQN
